import Mathlib

/-!
Shallow embedding of the `vec_min` crate (`src/lib.rs`, `src/vec.rs`): a
dynamic array `VecMin<T, M>` whose length never falls below the constant `M`.
The container state is modelled as a `List T`; each public method of
`VecMin` becomes a pure function from the pre-state to the post-state
together with its return value.  `Option` models panics/aborts (`none` =
the operation aborts and never returns), and `Except MinLenError` models
the recoverable `Result` of the checked operations.  `usize` is modelled
as `Nat`; the one place where the machine width matters (the saturating /
checked additions used when normalizing inclusive range bounds) carries an
explicit `USIZE_MAX` constant.  Subtractions on `usize` that can underflow
(`len - drain_len` in `drain`, `len + gain - loss` in `splice`) are
modelled as aborting when they would underflow, matching the
overflow-checked semantics (on the same inputs the release build also
aborts, inside the underlying `Vec::drain`/`Vec::splice` range check).
-/

instance {ε α : Type} [DecidableEq ε] [DecidableEq α] : DecidableEq (Except ε α) := fun
  | .ok a, .ok b =>
    if h : a = b then .isTrue (congrArg Except.ok h)
    else .isFalse fun hc => h (Except.ok.inj hc)
  | .ok _, .error _ => .isFalse fun hc => Except.noConfusion hc
  | .error _, .ok _ => .isFalse fun hc => Except.noConfusion hc
  | .error a, .error b =>
    if h : a = b then .isTrue (congrArg Except.error h)
    else .isFalse fun hc => h (Except.error.inj hc)

namespace VecMin

variable {T : Type}

/-- Modelled from the spec: the error type `MinLenError` is referenced by
`src/vec.rs` (`MinLenError::BelowMinimum`) but its definition is not under
`src/`; the spec treats it as an external collaborator, "a value type
distinguishable from success, carrying no payload beyond its kind". -/
inductive MinLenError where
  | belowMinimum
deriving DecidableEq, Repr

/-- Models `std::ops::Bound<usize>`. -/
inductive Bound where
  | included (n : Nat)
  | excluded (n : Nat)
  | unbounded
deriving DecidableEq, Repr

/-- Models a `RangeBounds<usize>` value by its two bounds
(`start_bound`, `end_bound`). -/
structure RangeSpec where
  lo : Bound
  hi : Bound
deriving DecidableEq, Repr

/-- `usize::MAX` on a 64-bit target. -/
def USIZE_MAX : Nat := 2 ^ 64 - 1

/-- Models `n.saturating_add(1)` on `usize`. -/
def satAdd1 (n : Nat) : Nat := min (n + 1) USIZE_MAX

/-- Models `n.checked_add(1)` on `usize` (`none` = overflow). -/
def checkedAdd1 (n : Nat) : Option Nat :=
  if n + 1 ≤ USIZE_MAX then some (n + 1) else none

/-- Start bound resolution inside `range_len` (`src/vec.rs` lines 522-526). -/
def rangeStart (r : RangeSpec) : Nat :=
  match r.lo with
  | .included n => n
  | .excluded n => satAdd1 n
  | .unbounded => 0

/-- End bound resolution inside `range_len` (`src/vec.rs` lines 527-531). -/
def rangeEnd (r : RangeSpec) (max : Nat) : Nat :=
  match r.hi with
  | .included n => satAdd1 n
  | .excluded n => n
  | .unbounded => max

/-- Models `range_len` (`src/vec.rs` lines 520-534): saturating count of the
elements a range denotes (`Nat` subtraction is itself saturating, like
`end.saturating_sub(start)`). -/
def range_len (r : RangeSpec) (max : Nat) : Nat :=
  rangeEnd r max - rangeStart r

/-- Start bound resolution of the standard slice-range validator
(`slice_range` in `src/lib.rs`, a copy of core's `slice::range`, which is
also what `Vec::drain` / `Vec::splice` / `Vec::extend_from_within` run):
`checked_add` aborts on overflow. -/
def sliceRangeStart (r : RangeSpec) : Option Nat :=
  match r.lo with
  | .included n => some n
  | .excluded n => checkedAdd1 n
  | .unbounded => some 0

/-- End bound resolution of the standard slice-range validator. -/
def sliceRangeEnd (r : RangeSpec) (len : Nat) : Option Nat :=
  match r.hi with
  | .included n => checkedAdd1 n
  | .excluded n => some n
  | .unbounded => some len

/-- Models `slice_range` (`src/lib.rs` lines 31-63) and equally core's
`slice::range` as used by `Vec::drain`/`Vec::splice`: resolves both bounds
with `checked_add`, then asserts `start ≤ end ≤ len`; `none` models the
panic/abort on a malformed range. -/
def slice_range (r : RangeSpec) (len : Nat) : Option (Nat × Nat) :=
  match sliceRangeStart r, sliceRangeEnd r len with
  | some s, some e => if s ≤ e ∧ e ≤ len then some (s, e) else none
  | _, _ => none

/-! ### Construction (`src/vec.rs` lines 63-127) -/

/-- Models `VecMin::new` (lines 74-81): `Ok` iff `vec.len() >= M`, the
rejected `Vec` is handed back in the error case. -/
def new (M : Nat) (v : List T) : Except (List T) (List T) :=
  if M ≤ v.length then .ok v else .error v

/-- Models `VecMin::_collect` (lines 83-92): the iterator is fully drained
into a fresh `Vec` (the list `l`, in order) and then checked with `new`.
The capacity argument `cap` only pre-sizes the allocation and cannot affect
contents or length. -/
def _collect (M : Nat) (l : List T) (cap : Nat) : Except (List T) (List T) :=
  let _ := cap
  new M l

/-- Models `VecMin::collect` (lines 95-98). -/
def collect (M : Nat) (l : List T) : Except (List T) (List T) :=
  _collect M l M

/-- Models `VecMin::collect_with_capacity` (lines 102-108). -/
def collect_with_capacity (M : Nat) (l : List T) (extra : Nat) :
    Except (List T) (List T) :=
  _collect M l (M + extra)

/-! ### Length-increasing mutation (`src/vec.rs` lines 310-361) -/

/-- Models `VecMin::push` (delegates to `Vec::push`). -/
def push (v : List T) (x : T) : List T := v ++ [x]

/-- Models `VecMin::insert` (delegates to `Vec::insert`, which panics when
`index > len`). -/
def insert (v : List T) (i : Nat) (x : T) : Option (List T) :=
  if i ≤ v.length then some (v.take i ++ x :: v.drop i) else none

/-- Models `VecMin::append` (delegates to `Vec::append`): moves every
element of `other` onto the end, leaving `other` empty. -/
def append (v : List T) (other : List T) : List T × List T :=
  (v ++ other, [])

/-- Models `VecMin::extend_from_slice` and the `Extend` impls. -/
def extend (v : List T) (xs : List T) : List T := v ++ xs

/-- Models `VecMin::extend_from_within` (delegates to
`Vec::extend_from_within`, which validates the range with core's
`slice::range` and panics on a malformed one). -/
def extend_from_within (v : List T) (r : RangeSpec) : Option (List T) :=
  match slice_range r v.length with
  | some (s, e) => some (v ++ (v.drop s).take (e - s))
  | none => none

/-! ### Length-reducing mutation (`src/vec.rs` lines 364-518) -/

/-- Models `VecMin::pop` (lines 368-374): checked remove-last. -/
def pop (M : Nat) (v : List T) : Except MinLenError (Option T) × List T :=
  if M < v.length then (.ok v.getLast?, v.dropLast)
  else (.error .belowMinimum, v)

/-- Models `VecMin::pop_to_min` (lines 378-384): clamped remove-last. -/
def pop_to_min (M : Nat) (v : List T) : Option T × List T :=
  if M < v.length then (v.getLast?, v.dropLast) else (none, v)

/-- Models `VecMin::remove` (lines 389-395); `Vec::remove` panics when
`index >= len`. -/
def remove (M : Nat) (i : Nat) (v : List T) :
    Option (Except MinLenError T × List T) :=
  if M < v.length then
    if h : i < v.length then
      some (.ok (v.get ⟨i, h⟩), v.take i ++ v.drop (i + 1))
    else none
  else some (.error .belowMinimum, v)

/-- Models `VecMin::swap_remove` (lines 400-406); `Vec::swap_remove`
replaces the element at `index` with the last element and shortens by one,
panicking when `index >= len`. -/
def swap_remove (M : Nat) (i : Nat) (v : List T) :
    Option (Except MinLenError T × List T) :=
  if M < v.length then
    if h : i < v.length then
      some (.ok (v.get ⟨i, h⟩),
        (v.set i (v.getLast (List.length_pos.mp
          (Nat.lt_of_le_of_lt (Nat.zero_le i) h)))).dropLast)
    else none
  else some (.error .belowMinimum, v)

/-- Models `VecMin::truncate` (lines 411-417); `Vec::truncate` keeps the
first `min(len, requested)` elements. -/
def truncate (M : Nat) (n : Nat) (v : List T) :
    Except MinLenError Unit × List T :=
  if M ≤ n then (.ok (), v.take n) else (.error .belowMinimum, v)

/-- Models `VecMin::truncate_or_min` (lines 421-423). -/
def truncate_or_min (M : Nat) (n : Nat) (v : List T) : List T :=
  v.take (max n M)

/-- Models `VecMin::truncate_to_min` (lines 427-429). -/
def truncate_to_min (M : Nat) (v : List T) : List T :=
  v.take M

/-- Models `Vec::resize`: truncates when shrinking, pads with copies of
`x` when growing. -/
def vecResize (v : List T) (n : Nat) (x : T) : List T :=
  if n ≤ v.length then v.take n else v ++ List.replicate (n - v.length) x

/-- Models `Vec::resize_with`: the generator closure is modelled by its
call index, the i-th call producing `f i`. -/
def vecResizeWith (v : List T) (n : Nat) (f : Nat → T) : List T :=
  if n ≤ v.length then v.take n else v ++ (List.range (n - v.length)).map f

/-- Models `VecMin::resize` (lines 434-443). -/
def resize (M : Nat) (n : Nat) (x : T) (v : List T) :
    Except MinLenError Unit × List T :=
  if M ≤ n then (.ok (), vecResize v n x) else (.error .belowMinimum, v)

/-- Models `VecMin::resize_or_min` (lines 448-453). -/
def resize_or_min (M : Nat) (n : Nat) (x : T) (v : List T) : List T :=
  vecResize v (max n M) x

/-- Models `VecMin::resize_with` (lines 458-467). -/
def resize_with (M : Nat) (n : Nat) (f : Nat → T) (v : List T) :
    Except MinLenError Unit × List T :=
  if M ≤ n then (.ok (), vecResizeWith v n f) else (.error .belowMinimum, v)

/-- Models `VecMin::resize_or_min_with` (lines 472-477). -/
def resize_or_min_with (M : Nat) (n : Nat) (f : Nat → T) (v : List T) :
    List T :=
  vecResizeWith v (max n M) f

/-- Models `Vec::drain`: validates the range with core's `slice::range`
(abort on a malformed one), removes the denoted elements and yields them in
order. -/
def vecDrain (v : List T) (r : RangeSpec) : Option (List T × List T) :=
  match slice_range r v.length with
  | some (s, e) => some ((v.drop s).take (e - s), v.take s ++ v.drop e)
  | none => none

/-- Models `VecMin::drain` (lines 481-493): computes
`drain_len = range_len(&range, len)` and `final_len = len - drain_len`
(the `usize` subtraction aborts when `drain_len > len`), checks
`final_len >= M` and only then delegates to `Vec::drain`. -/
def drain (M : Nat) (v : List T) (r : RangeSpec) :
    Option (Except MinLenError (List T) × List T) :=
  let drainLen := range_len r v.length
  if drainLen ≤ v.length then
    let finalLen := v.length - drainLen
    if M ≤ finalLen then
      match vecDrain v r with
      | some (removed, rest) => some (.ok removed, rest)
      | none => none
    else some (.error .belowMinimum, v)
  else none

/-- Models `Vec::splice` (consumed to completion): validates the range with
core's `slice::range`, removes the denoted elements (yielded in order) and
inserts the replacement in their place. -/
def vecSplice (v : List T) (r : RangeSpec) (repl : List T) :
    Option (List T × List T) :=
  match slice_range r v.length with
  | some (s, e) => some ((v.drop s).take (e - s), v.take s ++ repl ++ v.drop e)
  | none => none

/-- Models `VecMin::splice` (lines 497-517): eagerly takes the replacement
iterator's exact size `gain`, computes `loss = range_len(&range, len)` and
`final_len = len + gain - loss` (the `usize` subtraction aborts when
`loss > len + gain`), checks `final_len >= M` and only then delegates to
`Vec::splice`. -/
def splice (M : Nat) (v : List T) (r : RangeSpec) (repl : List T) :
    Option (Except MinLenError (List T) × List T) :=
  let gain := repl.length
  let loss := range_len r v.length
  if loss ≤ v.length + gain then
    let finalLen := v.length + gain - loss
    if M ≤ finalLen then
      match vecSplice v r repl with
      | some (removed, rest) => some (.ok removed, rest)
      | none => none
    else some (.error .belowMinimum, v)
  else none

/-! ### The public mutating surface as a step relation -/

/-- One public mutating operation of `VecMin`.  Capacity management
(`reserve`, `shrink_to_fit`, ...) never touches the length; capacity is not
part of the list model, so those operations act as the identity on it. -/
inductive Op (T : Type) where
  | push (x : T)
  | insert (i : Nat) (x : T)
  | append (other : List T)
  | extendFromSlice (other : List T)
  | extendFromWithin (r : RangeSpec)
  | extendIter (xs : List T)
  | reserve (n : Nat)
  | shrinkToFit
  | pop
  | popToMin
  | remove (i : Nat)
  | swapRemove (i : Nat)
  | truncate (n : Nat)
  | truncateOrMin (n : Nat)
  | truncateToMin
  | resize (n : Nat) (x : T)
  | resizeOrMin (n : Nat) (x : T)
  | resizeWith (n : Nat) (f : Nat → T)
  | resizeOrMinWith (n : Nat) (f : Nat → T)
  | drain (r : RangeSpec)
  | splice (r : RangeSpec) (repl : List T)

/-- Container state after one public operation (`none` = the operation
panicked/aborted and no state is observable). -/
def step (M : Nat) (op : Op T) (v : List T) : Option (List T) :=
  match op with
  | .push x => some (push v x)
  | .insert i x => insert v i x
  | .append other => some (append v other).1
  | .extendFromSlice other => some (extend v other)
  | .extendFromWithin r => extend_from_within v r
  | .extendIter xs => some (extend v xs)
  | .reserve _ => some v
  | .shrinkToFit => some v
  | .pop => some (pop M v).2
  | .popToMin => some (pop_to_min M v).2
  | .remove i => (remove M i v).map (·.2)
  | .swapRemove i => (swap_remove M i v).map (·.2)
  | .truncate n => some (truncate M n v).2
  | .truncateOrMin n => some (truncate_or_min M n v)
  | .truncateToMin => some (truncate_to_min M v)
  | .resize n x => some (resize M n x v).2
  | .resizeOrMin n x => some (resize_or_min M n x v)
  | .resizeWith n f => some (resize_with M n f v).2
  | .resizeOrMinWith n f => some (resize_or_min_with M n f v)
  | .drain r => (drain M v r).map (·.2)
  | .splice r repl => (splice M v r repl).map (·.2)

/-- Runs a sequence of public operations, aborting the whole program as
soon as one operation panics. -/
def runOps (M : Nat) : List (Op T) → List T → Option (List T)
  | [], v => some v
  | op :: ops, v =>
    match step M op v with
    | some v2 => runOps M ops v2
    | none => none

/-! ### Helper lemmas -/

theorem satAdd1_of_checked {n m : Nat} (h : checkedAdd1 n = some m) :
    satAdd1 n = m ∧ m = n + 1 := by
  rw [checkedAdd1] at h
  split at h
  · obtain rfl := Option.some.inj h
    exact ⟨Nat.min_eq_left (by omega), rfl⟩
  · exact absurd h (by simp)

theorem rangeStart_of_slice {r : RangeSpec} {s : Nat}
    (h : sliceRangeStart r = some s) : rangeStart r = s := by
  cases hl : r.lo with
  | included n =>
    rw [sliceRangeStart, hl] at h
    rw [rangeStart, hl]
    exact Option.some.inj h
  | excluded n =>
    rw [sliceRangeStart, hl] at h
    rw [rangeStart, hl]
    exact (satAdd1_of_checked h).1
  | unbounded =>
    rw [sliceRangeStart, hl] at h
    rw [rangeStart, hl]
    exact Option.some.inj h

theorem rangeEnd_of_slice {r : RangeSpec} {len e : Nat}
    (h : sliceRangeEnd r len = some e) : rangeEnd r len = e := by
  cases hh : r.hi with
  | included n =>
    rw [sliceRangeEnd, hh] at h
    rw [rangeEnd, hh]
    exact (satAdd1_of_checked h).1
  | excluded n =>
    rw [sliceRangeEnd, hh] at h
    rw [rangeEnd, hh]
    exact Option.some.inj h
  | unbounded =>
    rw [sliceRangeEnd, hh] at h
    rw [rangeEnd, hh]
    exact Option.some.inj h

theorem slice_range_spec {r : RangeSpec} {len s e : Nat}
    (h : slice_range r len = some (s, e)) :
    s ≤ e ∧ e ≤ len ∧ rangeStart r = s ∧ rangeEnd r len = e := by
  rw [slice_range] at h
  cases hs : sliceRangeStart r with
  | none => rw [hs] at h; simp at h
  | some s0 =>
    cases he : sliceRangeEnd r len with
    | none => rw [hs, he] at h; simp at h
    | some e0 =>
      rw [hs, he] at h
      simp only [] at h
      split at h
      · simp only [Option.some.injEq, Prod.mk.injEq] at h
        obtain ⟨rfl, rfl⟩ := h
        next hb => exact ⟨hb.1, hb.2, rangeStart_of_slice hs, rangeEnd_of_slice he⟩
      · simp at h

theorem range_len_of_slice {r : RangeSpec} {len s e : Nat}
    (h : slice_range r len = some (s, e)) : range_len r len = e - s := by
  obtain ⟨_, _, hs, he⟩ := slice_range_spec h
  rw [range_len, hs, he]

theorem vecDrain_some {v : List T} {r : RangeSpec} {rem rest : List T}
    (h : vecDrain v r = some (rem, rest)) :
    ∃ s e, slice_range r v.length = some (s, e) ∧
      rem = (v.drop s).take (e - s) ∧ rest = v.take s ++ v.drop e := by
  rw [vecDrain] at h
  cases hr : slice_range r v.length with
  | none => rw [hr] at h; simp at h
  | some p =>
    obtain ⟨s, e⟩ := p
    rw [hr] at h
    simp only [Option.some.injEq, Prod.mk.injEq] at h
    exact ⟨s, e, rfl, h.1.symm, h.2.symm⟩

theorem vecSplice_some {v repl : List T} {r : RangeSpec} {rem rest : List T}
    (h : vecSplice v r repl = some (rem, rest)) :
    ∃ s e, slice_range r v.length = some (s, e) ∧
      rem = (v.drop s).take (e - s) ∧ rest = v.take s ++ repl ++ v.drop e := by
  rw [vecSplice] at h
  cases hr : slice_range r v.length with
  | none => rw [hr] at h; simp at h
  | some p =>
    obtain ⟨s, e⟩ := p
    rw [hr] at h
    simp only [Option.some.injEq, Prod.mk.injEq] at h
    exact ⟨s, e, rfl, h.1.symm, h.2.symm⟩

theorem length_vecResize (v : List T) (n : Nat) (x : T) :
    (vecResize v n x).length = n := by
  rw [vecResize]
  split <;> simp [List.length_take] <;> omega

theorem length_vecResizeWith (v : List T) (n : Nat) (f : Nat → T) :
    (vecResizeWith v n f).length = n := by
  rw [vecResizeWith]
  split <;> simp [List.length_take] <;> omega

theorem step_preserves_min {M : Nat} {op : Op T} {v v2 : List T}
    (hv : M ≤ v.length) (h : step M op v = some v2) : M ≤ v2.length := by
  cases op with
  | push x =>
    simp only [step, push, Option.some.injEq] at h
    subst h; simp; omega
  | insert i x =>
    simp only [step, insert] at h
    split at h
    · simp only [Option.some.injEq] at h
      subst h; simp [List.length_take]; omega
    · simp at h
  | append other =>
    simp only [step, append, Option.some.injEq] at h
    subst h; simp; omega
  | extendFromSlice other =>
    simp only [step, extend, Option.some.injEq] at h
    subst h; simp; omega
  | extendFromWithin r =>
    simp only [step, extend_from_within] at h
    cases hr : slice_range r v.length with
    | none => rw [hr] at h; simp at h
    | some p =>
      obtain ⟨s, e⟩ := p
      rw [hr] at h
      simp only [Option.some.injEq] at h
      subst h; simp; omega
  | extendIter xs =>
    simp only [step, extend, Option.some.injEq] at h
    subst h; simp; omega
  | reserve n =>
    simp only [step, Option.some.injEq] at h
    subst h; exact hv
  | shrinkToFit =>
    simp only [step, Option.some.injEq] at h
    subst h; exact hv
  | pop =>
    simp only [step, pop, Option.some.injEq] at h
    split at h <;> (subst h; simp; omega)
  | popToMin =>
    simp only [step, pop_to_min, Option.some.injEq] at h
    split at h <;> (subst h; simp; omega)
  | remove i =>
    simp only [step, remove] at h
    split at h
    · split at h
      · simp only [Option.map_some', Option.some.injEq] at h
        subst h; simp [List.length_take]; omega
      · simp at h
    · simp only [Option.map_some', Option.some.injEq] at h
      subst h; exact hv
  | swapRemove i =>
    simp only [step, swap_remove] at h
    split at h
    · split at h
      · simp only [Option.map_some', Option.some.injEq] at h
        subst h; simp; omega
      · simp at h
    · simp only [Option.map_some', Option.some.injEq] at h
      subst h; exact hv
  | truncate n =>
    simp only [step, truncate, Option.some.injEq] at h
    split at h <;> subst h
    · simp [List.length_take]; omega
    · exact hv
  | truncateOrMin n =>
    simp only [step, truncate_or_min, Option.some.injEq] at h
    subst h; simp [List.length_take]; omega
  | truncateToMin =>
    simp only [step, truncate_to_min, Option.some.injEq] at h
    subst h; simp [List.length_take]; omega
  | resize n x =>
    simp only [step, resize, Option.some.injEq] at h
    split at h <;> subst h
    · rw [length_vecResize]; omega
    · exact hv
  | resizeOrMin n x =>
    simp only [step, resize_or_min, Option.some.injEq] at h
    subst h; rw [length_vecResize]; omega
  | resizeWith n f =>
    simp only [step, resize_with, Option.some.injEq] at h
    split at h <;> subst h
    · rw [length_vecResizeWith]; omega
    · exact hv
  | resizeOrMinWith n f =>
    simp only [step, resize_or_min_with, Option.some.injEq] at h
    subst h; rw [length_vecResizeWith]; omega
  | drain r =>
    simp only [step, drain] at h
    split at h
    · split at h
      · cases hvd : vecDrain v r with
        | none => rw [hvd] at h; simp at h
        | some p =>
          obtain ⟨rem, rest⟩ := p
          rw [hvd] at h
          simp only [Option.map_some', Option.some.injEq] at h
          subst h
          obtain ⟨s, e, hr, -, hrest⟩ := vecDrain_some hvd
          obtain ⟨hse, hel, -, -⟩ := slice_range_spec hr
          have hlen := range_len_of_slice hr
          subst hrest
          simp only [List.length_append, List.length_take, List.length_drop]
          omega
      · simp only [Option.map_some', Option.some.injEq] at h
        subst h; exact hv
    · simp at h
  | splice r repl =>
    simp only [step, splice] at h
    split at h
    · split at h
      · cases hvs : vecSplice v r repl with
        | none => rw [hvs] at h; simp at h
        | some p =>
          obtain ⟨rem, rest⟩ := p
          rw [hvs] at h
          simp only [Option.map_some', Option.some.injEq] at h
          subst h
          obtain ⟨s, e, hr, -, hrest⟩ := vecSplice_some hvs
          obtain ⟨hse, hel, -, -⟩ := slice_range_spec hr
          have hlen := range_len_of_slice hr
          subst hrest
          simp only [List.length_append, List.length_take, List.length_drop]
          omega
      · simp only [Option.map_some', Option.some.injEq] at h
        subst h; exact hv
    · simp at h

theorem new_ok {M : Nat} {w u : List T} (h : new M w = .ok u) :
    u = w ∧ M ≤ w.length := by
  rw [new] at h
  split at h
  · exact ⟨(Except.ok.inj h).symm, by assumption⟩
  · exact absurd h (by simp)

theorem runOps_preserves_min {M : Nat} (ops : List (Op T)) (v v2 : List T)
    (hv : M ≤ v.length) (h : runOps M ops v = some v2) : M ≤ v2.length := by
  induction ops generalizing v with
  | nil =>
    rw [runOps] at h
    obtain rfl := Option.some.inj h
    exact hv
  | cons op ops ih =>
    rw [runOps] at h
    cases hstep : step M op v with
    | none => rw [hstep] at h; simp at h
    | some vmid =>
      rw [hstep] at h
      exact ih vmid (step_preserves_min hv hstep) h

/-! ### Claims -/

/-- C1: for every container constructed through the checked constructor (so
with length at least `M`) and every sequence of public operations, the length
is at least `M` after every operation that returns — intermediate states
included, since every prefix of the sequence is itself such a sequence. -/
theorem invariant_preserved {M : Nat} (ops : List (Op T)) (w u v2 : List T)
    (hnew : new M w = Except.ok u) (hrun : runOps M ops u = some v2) :
    M ≤ v2.length := by
  obtain ⟨rfl, hw⟩ := new_ok hnew
  exact runOps_preserves_min ops _ v2 hw hrun

/-- C1 witness: `M = 2`, construct from `[1,2,3]`, then pop, push `5`, drain
`[0,1)`; every step returns and the final state keeps length at least 2. -/
theorem invariant_preserved_witness :
    runOps 2 [Op.pop, Op.push 5, Op.drain ⟨Bound.included 0, Bound.excluded 1⟩]
      ([1, 2, 3] : List Nat) = some [2, 5] ∧ 2 ≤ ([2, 5] : List Nat).length :=
  ⟨by decide,
    invariant_preserved [Op.pop, Op.push 5, Op.drain ⟨Bound.included 0, Bound.excluded 1⟩]
      [1, 2, 3] [1, 2, 3] [2, 5] (by decide) (by decide)⟩

/-- C2: whenever a checked operation (`pop`, `remove`, `swap_remove`,
`truncate`, `resize`, `resize_with`, `drain`, `splice`) returns the
minimum-length error, the container state after the call equals the state
before the call — in particular `drain` and `splice` compute the removal and
insertion counts from the range specification before mutating anything. -/
theorem checked_error_no_mutation (M i n : Nat) (x : T) (f : Nat → T)
    (v v2 : List T) (r : RangeSpec) (repl : List T) :
    (pop M v = (.error .belowMinimum, v2) → v2 = v) ∧
    (remove M i v = some (.error .belowMinimum, v2) → v2 = v) ∧
    (swap_remove M i v = some (.error .belowMinimum, v2) → v2 = v) ∧
    (truncate M n v = (.error .belowMinimum, v2) → v2 = v) ∧
    (resize M n x v = (.error .belowMinimum, v2) → v2 = v) ∧
    (resize_with M n f v = (.error .belowMinimum, v2) → v2 = v) ∧
    (drain M v r = some (.error .belowMinimum, v2) → v2 = v) ∧
    (splice M v r repl = some (.error .belowMinimum, v2) → v2 = v) := by
  refine ⟨?_, ?_, ?_, ?_, ?_, ?_, ?_, ?_⟩ <;> intro h
  · rw [pop] at h
    split at h
    · exact absurd (congrArg Prod.fst h) (by simp)
    · exact (congrArg Prod.snd h).symm
  · rw [remove] at h
    split at h
    · split at h
      · simp at h
      · simp at h
    · simp only [Option.some.injEq, Prod.mk.injEq] at h
      exact h.2.symm
  · rw [swap_remove] at h
    split at h
    · split at h
      · simp at h
      · simp at h
    · simp only [Option.some.injEq, Prod.mk.injEq] at h
      exact h.2.symm
  · rw [truncate] at h
    split at h
    · exact absurd (congrArg Prod.fst h) (by simp)
    · exact (congrArg Prod.snd h).symm
  · rw [resize] at h
    split at h
    · exact absurd (congrArg Prod.fst h) (by simp)
    · exact (congrArg Prod.snd h).symm
  · rw [resize_with] at h
    split at h
    · exact absurd (congrArg Prod.fst h) (by simp)
    · exact (congrArg Prod.snd h).symm
  · simp only [drain] at h
    split at h
    · split at h
      · cases hvd : vecDrain v r with
        | none => rw [hvd] at h; simp at h
        | some p =>
          obtain ⟨rem, rest⟩ := p
          rw [hvd] at h
          simp at h
      · simp only [Option.some.injEq, Prod.mk.injEq] at h
        exact h.2.symm
    · simp at h
  · simp only [splice] at h
    split at h
    · split at h
      · cases hvs : vecSplice v r repl with
        | none => rw [hvs] at h; simp at h
        | some p =>
          obtain ⟨rem, rest⟩ := p
          rw [hvs] at h
          simp at h
      · simp only [Option.some.injEq, Prod.mk.injEq] at h
        exact h.2.symm
    · simp at h

/-- C2 witness: with `M = 2`, draining `[0,2)` of `[1,2]` is rejected and
leaves the container exactly as it was. -/
theorem checked_error_no_mutation_witness :
    drain 2 ([1, 2] : List Nat) ⟨Bound.included 0, Bound.excluded 2⟩
      = some (Except.error MinLenError.belowMinimum, [1, 2]) ∧
    ([1, 2] : List Nat) = [1, 2] :=
  ⟨by decide,
    (checked_error_no_mutation 2 0 0 0 (fun _ => 0) [1, 2] [1, 2]
      ⟨Bound.included 0, Bound.excluded 2⟩ []).2.2.2.2.2.2.1 (by decide)⟩

/-- C3: for a container with length at least `M` and an in-bounds range
resolving to `[s, e)` (`s ≤ e ≤ len`, as validated by the standard slice-range
check), checked `drain` computes the removal count `e - s` via `range_len` and
fails exactly when `len - (e - s) < M`; otherwise it removes exactly the
elements of `[s, e)` and returns them in order. -/
theorem drain_checked_spec (M : Nat) (v : List T) (r : RangeSpec) (s e : Nat)
    (hv : M ≤ v.length) (hr : slice_range r v.length = some (s, e)) :
    range_len r v.length = e - s ∧
    (v.length - (e - s) < M →
      drain M v r = some (.error .belowMinimum, v)) ∧
    (M ≤ v.length - (e - s) →
      drain M v r = some (.ok ((v.drop s).take (e - s)), v.take s ++ v.drop e)) := by
  obtain ⟨hse, hel, -, -⟩ := slice_range_spec hr
  have hlen := range_len_of_slice hr
  refine ⟨hlen, ?_, ?_⟩
  · intro hlt
    simp only [drain, hlen]
    rw [if_pos (by omega), if_neg (by omega)]
  · intro hge
    simp only [drain, hlen]
    rw [if_pos (by omega), if_pos hge]
    simp only [vecDrain, hr]

/-- C3 witness: `M = 2`, draining `[1,3)` of `[1,2,3,4]` succeeds, returns
`[2,3]` and leaves `[1,4]`; the computed removal count is 2. -/
theorem drain_checked_spec_witness :
    range_len ⟨Bound.included 1, Bound.excluded 3⟩ ([1, 2, 3, 4] : List Nat).length = 2 ∧
    drain 2 ([1, 2, 3, 4] : List Nat) ⟨Bound.included 1, Bound.excluded 3⟩
      = some (Except.ok [2, 3], [1, 4]) :=
  ⟨(drain_checked_spec 2 ([1, 2, 3, 4] : List Nat) ⟨Bound.included 1, Bound.excluded 3⟩ 1 3
      (by decide) (by decide)).1,
    (drain_checked_spec 2 ([1, 2, 3, 4] : List Nat) ⟨Bound.included 1, Bound.excluded 3⟩ 1 3
      (by decide) (by decide)).2.2 (by decide)⟩

/-- C4: for a container with length at least `M`, an in-bounds range resolving
to `[s, e)` and a replacement sequence of known size, checked `splice`
computes the prospective final length `len + |repl| - (e - s)` and fails
exactly when it is below `M`; otherwise it removes `[s, e)`, inserts the
replacement in its place and returns the removed elements in order. -/
theorem splice_checked_spec (M : Nat) (v : List T) (r : RangeSpec) (s e : Nat)
    (repl : List T) (hv : M ≤ v.length) (hr : slice_range r v.length = some (s, e)) :
    range_len r v.length = e - s ∧
    (v.length + repl.length - (e - s) < M →
      splice M v r repl = some (.error .belowMinimum, v)) ∧
    (M ≤ v.length + repl.length - (e - s) →
      splice M v r repl
        = some (.ok ((v.drop s).take (e - s)), v.take s ++ repl ++ v.drop e)) := by
  obtain ⟨hse, hel, -, -⟩ := slice_range_spec hr
  have hlen := range_len_of_slice hr
  refine ⟨hlen, ?_, ?_⟩
  · intro hlt
    simp only [splice, hlen]
    rw [if_pos (by omega), if_neg (by omega)]
  · intro hge
    simp only [splice, hlen]
    rw [if_pos (by omega), if_pos hge]
    simp only [vecSplice, hr]

/-- C4 witness: `M = 3`, splicing `[1,3)` of `[1,2,3,4]` with `[7,8,9]`
succeeds (prospective length 5), returns `[2,3]` and leaves `[1,7,8,9,4]`;
with replacement `[]` and range `[0,3)` it is rejected (prospective length 1)
and the container is unchanged. -/
theorem splice_checked_spec_witness :
    splice 3 ([1, 2, 3, 4] : List Nat) ⟨Bound.included 1, Bound.excluded 3⟩ [7, 8, 9]
      = some (Except.ok [2, 3], [1, 7, 8, 9, 4]) ∧
    splice 3 ([1, 2, 3, 4] : List Nat) ⟨Bound.included 0, Bound.excluded 3⟩ []
      = some (Except.error MinLenError.belowMinimum, [1, 2, 3, 4]) :=
  ⟨(splice_checked_spec 3 ([1, 2, 3, 4] : List Nat) ⟨Bound.included 1, Bound.excluded 3⟩ 1 3
      [7, 8, 9] (by decide) (by decide)).2.2 (by decide),
    (splice_checked_spec 3 ([1, 2, 3, 4] : List Nat) ⟨Bound.included 0, Bound.excluded 3⟩ 0 3
      [] (by decide) (by decide)).2.1 (by decide)⟩

/-- C5 counterexample: with `M = 2` the malformed range `[3,6)` on
`[1,2,3,4]` (end 6 past length 4, rejected by the standard slice-range
validator) does not abort: the saturating `range_len` yields removal count 3,
the prospective length 1 fails the minimum check first, and `drain` surfaces
the recoverable minimum-length error with the container untouched —
contradicting the claim that malformed ranges always abort and never surface
as the recoverable error. -/
theorem malformed_range_recoverable_cex :
    slice_range ⟨Bound.included 3, Bound.excluded 6⟩ ([1, 2, 3, 4] : List Nat).length = none ∧
    drain 2 ([1, 2, 3, 4] : List Nat) ⟨Bound.included 3, Bound.excluded 6⟩
      = some (Except.error MinLenError.belowMinimum, [1, 2, 3, 4]) := by
  constructor
  · decide
  · decide

/-- C5 amended: a malformed range specification never yields a successful
result: `drain` and `splice` either abort (which happens whenever the
prospective-length check passes, since the underlying `Vec` operation then
validates the range, and also when the saturating removal count makes the
`usize` length subtraction underflow) or, when the prospective-length check
fails first, return the recoverable minimum-length error with the container
unmodified. -/
theorem malformed_range_amended (M : Nat) (v : List T) (r : RangeSpec)
    (repl : List T) (hr : slice_range r v.length = none) :
    (drain M v r = none ∨ drain M v r = some (.error .belowMinimum, v)) ∧
    (splice M v r repl = none ∨
      splice M v r repl = some (.error .belowMinimum, v)) := by
  constructor
  · simp only [drain]
    split
    · split
      · rw [vecDrain, hr]
        exact Or.inl rfl
      · exact Or.inr rfl
    · exact Or.inl rfl
  · simp only [splice]
    split
    · split
      · rw [vecSplice, hr]
        exact Or.inl rfl
      · exact Or.inr rfl
    · exact Or.inl rfl

/-- C5 amended witness: the malformed range `[3,6)` on `[1,2,3,4]` with
`M = 2` yields no successful result from `drain`. -/
theorem malformed_range_amended_witness :
    drain 2 ([1, 2, 3, 4] : List Nat) ⟨Bound.included 3, Bound.excluded 6⟩ = none ∨
    drain 2 ([1, 2, 3, 4] : List Nat) ⟨Bound.included 3, Bound.excluded 6⟩
      = some (Except.error MinLenError.belowMinimum, [1, 2, 3, 4]) :=
  (malformed_range_amended 2 ([1, 2, 3, 4] : List Nat)
    ⟨Bound.included 3, Bound.excluded 6⟩ [] (by decide)).1

/-- C6: checked construction (`new` / `TryFrom`) succeeds exactly when the
input length is at least `M`; success wraps the same buffer, failure returns
the rejected input itself unchanged; fallible collection from a producer
yielding fewer than `M` elements fails and returns the fully collected
buffer with every yielded element in order. -/
theorem construction_checked_spec (M : Nat) (v l w u : List T) :
    ((∃ u2, new M v = .ok u2) ↔ M ≤ v.length) ∧
    (new M v = .ok u → u = v) ∧
    (new M v = .error w → w = v) ∧
    (l.length < M → collect M l = .error l) := by
  refine ⟨⟨?_, ?_⟩, ?_, ?_, ?_⟩
  · rintro ⟨u2, h⟩
    exact (new_ok h).2
  · intro h
    exact ⟨v, by rw [new, if_pos h]⟩
  · intro h
    exact (new_ok h).1
  · intro h
    rw [new] at h
    split at h
    · exact absurd h (by simp)
    · exact (Except.error.inj h).symm
  · intro h
    rw [collect, _collect, new, if_neg (by omega)]

/-- C6 witness: with `M = 1`, collecting the empty producer fails and
returns the (empty) collected buffer. -/
theorem construction_checked_spec_witness :
    collect 1 ([] : List Nat) = .error [] :=
  (construction_checked_spec 1 [] [] [] []).2.2.2 (by decide)

/-- C7: whenever a checked operation fails on a container satisfying the
invariant (`pop` at length `M`; `truncate`, `resize`, `resize_with` with a
requested length below `M`), the corresponding clamped variant
(`pop_to_min`, `truncate_or_min`, `resize_or_min`, `resize_or_min_with`)
applied to the same starting state with the same argument leaves the
container with length exactly `M`. -/
theorem checked_clamped_pairing (M n : Nat) (x : T) (f : Nat → T) (v : List T)
    (hv : M ≤ v.length) :
    ((pop M v).1 = .error .belowMinimum → (pop_to_min M v).2.length = M) ∧
    ((truncate M n v).1 = .error .belowMinimum →
      (truncate_or_min M n v).length = M) ∧
    ((resize M n x v).1 = .error .belowMinimum →
      (resize_or_min M n x v).length = M) ∧
    ((resize_with M n f v).1 = .error .belowMinimum →
      (resize_or_min_with M n f v).length = M) := by
  refine ⟨?_, ?_, ?_, ?_⟩ <;> intro h
  · rw [pop] at h
    split at h
    · exact absurd h (by simp)
    · next hc =>
      rw [pop_to_min, if_neg hc]
      show v.length = M
      omega
  · rw [truncate] at h
    split at h
    · exact absurd h (by simp)
    · next hc =>
      rw [truncate_or_min]
      simp only [List.length_take]
      omega
  · rw [resize] at h
    split at h
    · exact absurd h (by simp)
    · next hc =>
      rw [resize_or_min, length_vecResize]
      omega
  · rw [resize_with] at h
    split at h
    · exact absurd h (by simp)
    · next hc =>
      rw [resize_or_min_with, length_vecResizeWith]
      omega

/-- C7 witness: `M = 2`; `pop_to_min` on `[1,2]`, `truncate_or_min 1` on
`[1,2,3]`, `resize_or_min 0` on `[1,2,3]` and `resize_or_min_with 1` on
`[1,2,3]` all land on length exactly 2, where the checked twins fail. -/
theorem checked_clamped_pairing_witness :
    (pop_to_min 2 ([1, 2] : List Nat)).2.length = 2 ∧
    (truncate_or_min 2 1 ([1, 2, 3] : List Nat)).length = 2 ∧
    (resize_or_min 2 0 (9 : Nat) [1, 2, 3]).length = 2 ∧
    (resize_or_min_with 2 1 (fun _ => (9 : Nat)) [1, 2, 3]).length = 2 :=
  ⟨(checked_clamped_pairing 2 0 9 (fun _ => 9) [1, 2] (by decide)).1 (by decide),
    (checked_clamped_pairing 2 1 9 (fun _ => 9) [1, 2, 3] (by decide)).2.1 (by decide),
    (checked_clamped_pairing 2 0 9 (fun _ => 9) [1, 2, 3] (by decide)).2.2.1 (by decide),
    (checked_clamped_pairing 2 1 9 (fun _ => 9) [1, 2, 3] (by decide)).2.2.2 (by decide)⟩

/-- C8: on a container satisfying the invariant, checked `pop` fails exactly
when the length equals `M` (leaving the container unchanged); when the length
exceeds `M` it returns the last element and drops it, shrinking the length by
exactly one. -/
theorem pop_checked_spec (M : Nat) (v : List T) (hv : M ≤ v.length) :
    (pop M v = (.error .belowMinimum, v) ↔ v.length = M) ∧
    (M < v.length →
      pop M v = (.ok v.getLast?, v.dropLast) ∧
      (∃ x, v.getLast? = some x ∧ v = v.dropLast ++ [x]) ∧
      v.dropLast.length + 1 = v.length) := by
  constructor
  · constructor
    · intro h
      rw [pop] at h
      split at h
      · exact absurd (congrArg Prod.fst h) (by simp)
      · next hc => omega
    · intro h
      rw [pop, if_neg (by omega)]
  · intro hlt
    have hne : v ≠ [] := List.length_pos.mp (by omega)
    refine ⟨by rw [pop, if_pos hlt], ⟨v.getLast hne, ?_, ?_⟩, ?_⟩
    · exact List.getLast?_eq_getLast_of_ne_nil hne
    · exact (List.dropLast_append_getLast hne).symm
    · have hd := List.length_dropLast v
      omega

/-- C8 witness: `M = 2`; popping `[1,2,3]` succeeds with `3` leaving `[1,2]`,
and popping `[1,2]` fails leaving `[1,2]` unchanged. -/
theorem pop_checked_spec_witness :
    pop 2 ([1, 2, 3] : List Nat) = (Except.ok (some 3), [1, 2]) ∧
    pop 2 ([1, 2] : List Nat) = (Except.error MinLenError.belowMinimum, [1, 2]) :=
  ⟨((pop_checked_spec 2 ([1, 2, 3] : List Nat) (by decide)).2 (by decide)).1,
    (pop_checked_spec 2 ([1, 2] : List Nat) (by decide)).1.mpr (by decide)⟩

/-- C9: `range_len` is a total pure function with no failure mode: it returns
the number of integer indices in the half-open interval obtained by resolving
the two bounds (inclusive bounds converted to exclusive with saturating
addition), and the final subtraction saturates to zero — in particular the
result is zero whenever the resolved start is at or beyond the resolved
end. -/
theorem range_len_spec (r : RangeSpec) (max : Nat) :
    range_len r max = (Finset.Ico (rangeStart r) (rangeEnd r max)).card ∧
    (rangeEnd r max ≤ rangeStart r → range_len r max = 0) := by
  constructor
  · rw [range_len, Nat.card_Ico]
  · intro h
    rw [range_len]
    omega

/-- C9 witness: a backwards range (`[3,1)` against bound 5) saturates to
zero instead of underflowing. -/
theorem range_len_spec_witness :
    range_len ⟨Bound.included 3, Bound.excluded 1⟩ 5 = 0 :=
  (range_len_spec ⟨Bound.included 3, Bound.excluded 1⟩ 5).2 (by decide)

/-- C10: on a container satisfying the invariant, a successful `pop` never
returns an empty value: the `Ok` payload is always `some` of the last
element, so the `Ok(None)` case of the `Result<Option<T>, _>` signature is
unreachable. -/
theorem pop_ok_isSome (M : Nat) (v : List T) (o : Option T) (v2 : List T)
    (hv : M ≤ v.length) (h : pop M v = (.ok o, v2)) :
    ∃ x, o = some x ∧ v.getLast? = some x := by
  rw [pop] at h
  split at h
  · next hlt =>
    have hne : v ≠ [] := List.length_pos.mp (by omega)
    simp only [Prod.mk.injEq, Except.ok.injEq] at h
    obtain ⟨rfl, -⟩ := h
    exact ⟨v.getLast hne, List.getLast?_eq_getLast_of_ne_nil hne,
      List.getLast?_eq_getLast_of_ne_nil hne⟩
  · exact absurd (congrArg Prod.fst h) (by simp)

/-- C10 witness: popping `[1,2,3]` with `M = 2` returns `some 3`, the last
element. -/
theorem pop_ok_isSome_witness :
    ∃ x, (some 3 : Option Nat) = some x ∧ ([1, 2, 3] : List Nat).getLast? = some x :=
  pop_ok_isSome 2 [1, 2, 3] (some 3) [1, 2] (by decide) (by decide)

end VecMin
